import Mathlib

/-!
Verification of the schemathesis core: the case-strategy composition engine
(`_hypothesis.py`) and the serializer registry (`serializers.py`).

The underlying generation engine (`hypothesis` / `hypothesis_jsonschema`) is an
external collaborator: a strategy is modelled extensionally as the list of
values it can produce, and `from_schema` is an explicit parameter of every
definition that consumes it (`Engine` below), fallible to model the
`AssertionError` it may raise on malformed schemas.
-/

namespace Schemathesis

/-- A Python value as it occurs in generated payloads: `None`, booleans,
integers, floats (carried by their `repr` string, the only aspect the code
observes), text, bytes (as a list of byte values), lists and dicts. -/
inductive Value where
  | vnull : Value
  | vbool : Bool → Value
  | vint : Int → Value
  | vfloat : String → Value
  | vstr : String → Value
  | vbytes : List Nat → Value
  | vlist : List Value → Value
  | vobj : List (String × Value) → Value

/-- UTF-8 encoding of one character (code point arithmetic). -/
def utf8Bytes (c : Char) : List Nat :=
  let n := c.toNat
  if n < 128 then [n]
  else if n < 2048 then [192 + n / 64, 128 + n % 64]
  else if n < 65536 then [224 + n / 4096, 128 + (n / 64) % 64, 128 + n % 64]
  else [240 + n / 262144, 128 + (n / 4096) % 64, 128 + (n / 64) % 64, 128 + n % 64]

/-- Model of `s.encode()` — UTF-8 bytes of a string.  `errors="ignore"` in the source
only drops lone surrogates, which a Lean `String` cannot contain, so plain
encoding models `str.encode(errors="ignore")` exactly. -/
def encodeUTF8 (s : String) : List Nat :=
  s.toList.flatMap utf8Bytes

/-- Model of `repr` of one byte inside a Python `bytes` literal. -/
def byteReprChar (b : Nat) : String :=
  if b = 9 then "\\t"
  else if b = 10 then "\\n"
  else if b = 13 then "\\r"
  else if b = 39 then "\\\x27"
  else if b = 92 then "\\\\"
  else if 32 ≤ b ∧ b ≤ 126 then String.singleton (Char.ofNat b)
  else "\\x" ++ String.singleton (Char.ofNat (Nat.digitChar (b / 16)).toNat)
            ++ String.singleton (Char.ofNat (Nat.digitChar (b % 16)).toNat)

mutual
/-- Python `repr` of a `Value` (model of the builtin). -/
def pyRepr : Value → String
  | .vnull => "None"
  | .vbool true => "True"
  | .vbool false => "False"
  | .vint n => if n < 0 then "-" ++ toString (-n) else toString n
  | .vfloat r => r
  | .vstr s => "\x27" ++ s ++ "\x27"
  | .vbytes bs => "b\x27" ++ String.join (bs.map byteReprChar) ++ "\x27"
  | .vlist xs => "[" ++ pyReprElems xs ++ "]"
  | .vobj fs => "\x7b" ++ pyReprFields fs ++ "\x7d"

/-- Comma-separated `repr`s of list elements. -/
def pyReprElems : List Value → String
  | [] => ""
  | [x] => pyRepr x
  | x :: xs => pyRepr x ++ ", " ++ pyReprElems xs

/-- Comma-separated `repr`s of dict entries. -/
def pyReprFields : List (String × Value) → String
  | [] => ""
  | [(k, v)] => "\x27" ++ k ++ "\x27: " ++ pyRepr v
  | (k, v) :: fs => "\x27" ++ k ++ "\x27: " ++ pyRepr v ++ ", " ++ pyReprFields fs
end

/-- Python `str` of a `Value` (model of the builtin): identical to `repr`
except on text, which is returned unquoted. -/
def pyStr : Value → String
  | .vstr s => s
  | v => pyRepr v

/-- First-match lookup in a Python-dict model (keys are unique in an actual
dict, so first match is the match). -/
def dictGet {α : Type} (d : List (String × α)) (k : String) : Option α :=
  match d with
  | [] => none
  | p :: rest => if p.1 = k then some p.2 else dictGet rest k

/-- Assignment `d[k] = v` on a Python-dict model: an existing key keeps its position,
a new key is appended (insertion order semantics). -/
def dictSet {α : Type} (d : List (String × α)) (k : String) (v : α) : List (String × α) :=
  match d with
  | [] => [(k, v)]
  | p :: rest => if p.1 = k then (k, v) :: rest else p :: dictSet rest k v

/-- Deletion `del d[k]` on a Python-dict model (caller checks presence). -/
def dictDel {α : Type} (d : List (String × α)) (k : String) : List (String × α) :=
  match d with
  | [] => []
  | p :: rest => if p.1 = k then rest else p :: dictDel rest k

/-- Key uniqueness: the representation invariant of an actual Python dict. -/
def keysNodup {α : Type} (d : List (String × α)) : Prop :=
  (d.map Prod.fst).Nodup

instance {α : Type} (d : List (String × α)) : Decidable (keysNodup d) := by
  unfold keysNodup; infer_instance

/-! ## Header Validity Filter (`_hypothesis.py`, lines 76–106) -/

/-- Characters matched by Python's regex `\s` on the ASCII range (the header
values we reason about are Latin-1; the Unicode additions NEL and NBSP never
decide any statement below). -/
def isPySpace (c : Char) : Bool :=
  c = ' ' || c = '\t' || c = '\n' || c = '\r' || c.toNat = 11 || c.toNat = 12

/-- Source `_is_latin_1_encodable`: `value.encode("latin-1")` succeeds exactly when
every code point is below 256. -/
def _is_latin_1_encodable (value : String) : Bool :=
  value.toList.all fun c => c.toNat ≤ 255

/-- The regex class `[ \t]` (the lookahead of `INVALID_HEADER_RE`). -/
def isSpaceTab (d : Char) : Bool :=
  d = ' ' || d = '\t'

/-- The regex class `[ \t\n]` (the lookahead after a carriage return). -/
def isSpaceTabLF (d : Char) : Bool :=
  d = ' ' || d = '\t' || d = '\n'

/-- The regex class `[\r\n]`. -/
def isCRorLF (d : Char) : Bool :=
  d = '\r' || d = '\n'

/-- Source `INVALID_HEADER_RE.search(value)` for the regex `\n(?![ \t])|\r(?![ \t\n])`:
scans for a line feed not followed by space/tab, or a carriage return not
followed by space/tab/line feed (end of string counts as "not followed"). -/
def invalid_header_re_search : List Char → Bool
  | [] => false
  | c :: rest =>
    if c = '\n' then
      (match rest with
       | [] => true
       | d :: _ => if isSpaceTab d then invalid_header_re_search rest else true)
    else if c = '\r' then
      (match rest with
       | [] => true
       | d :: _ => if isSpaceTabLF d then invalid_header_re_search rest else true)
    else invalid_header_re_search rest

/-- Modelled from the spec: the external HTTP header syntax validation
(`requests.utils.check_header_validity`, spec §4.2 item 2 — "name/value
character-class rules"; the library matches the value against
`^\S[^\r\n]*$|^$`): the value must be empty, or start with a non-whitespace
character and contain no carriage return / line feed after it. -/
def checkValuePattern : List Char → Bool
  | [] => true
  | c :: rest => !(isPySpace c) && rest.all fun d => !(isCRorLF d)

/-- The modelled `check_header_validity` applies the value pattern above (the
`name` component is ignored by the library).  Returns `true` when validation
passes, `false` when it raises `InvalidHeader`. -/
def check_header_validity_ok (_name value : String) : Bool :=
  checkValuePattern value.toList

/-- Source `_has_invalid_characters`: syntax validation first (failure means invalid),
then the bare-CR/LF regex search. -/
def _has_invalid_characters (name value : String) : Bool :=
  if check_header_validity_ok name value then invalid_header_re_search value.toList
  else true

/-- Source `is_valid_header`: rejects the whole mapping as soon as one entry has a
non-Latin-1-encodable value or invalid characters. -/
def is_valid_header : List (String × String) → Bool
  | [] => true
  | (name, value) :: rest =>
    if !(_is_latin_1_encodable value) then false
    else if _has_invalid_characters name value then false
    else is_valid_header rest

/-- View a generated `Value` as the dict of string headers the filter iterates
over; `none` when it is not a dict of strings. -/
def headerPairs : List (String × Value) → Option (List (String × String))
  | [] => some []
  | (k, .vstr v) :: rest => (headerPairs rest).map fun t => (k, v) :: t
  | _ => none

/-- The filter predicate as applied to a generated value.  A draw that is not
a dict of strings would crash the Python filter with an attribute error during
generation; it is treated as rejected, which is equally never observable in a
produced `Case`. -/
def is_valid_header_value (v : Value) : Bool :=
  match v with
  | .vobj fields =>
    (match headerPairs fields with
     | some hs => is_valid_header hs
     | none => false)
  | _ => false

/-! ## Strategy Composition Engine (`_hypothesis.py`, lines 18–142)

A Hypothesis `SearchStrategy` is modelled extensionally by the list of values
it can produce; `.filter` is list filtering, `.example()` takes the first
producible value and raises when there is none, and `st.builds` forms all
combinations of one draw per sub-strategy. -/

/-- The set of values a strategy can produce. -/
abbrev Strategy := List Value

/-- A JSON Schema document: a dict from string to JSON value (spec §3). -/
abbrev Schema := List (String × Value)

/-- The opaque schema-to-generator translation (`hypothesis_jsonschema`'s
`from_schema`), an external collaborator: it may fail with an
assertion-style error, modelled as `Except.error`. -/
abbrev Engine := Schema → Except Unit Strategy

/-- The six parameter categories (`PARAMETERS` in the source — a `frozenset`,
so its iteration order carries no meaning; definitions below use declaration
order). -/
inductive Cat where
  | path_parameters | headers | cookies | query | body | form_data
deriving DecidableEq

/-- Modelled from the spec (§3; `models.py` is outside the analysed sources):
an `Endpoint` is a path, an uppercase method, a base URL and six schema
slots. -/
structure Endpoint where
  path : String
  method : String
  base_url : String
  path_parameters : Schema
  headers : Schema
  cookies : Schema
  query : Schema
  body : Schema
  form_data : Schema

/-- Lookup `getattr(endpoint, name)` for a category name. -/
def Endpoint.schemaOf (ep : Endpoint) : Cat → Schema
  | .path_parameters => ep.path_parameters
  | .headers => ep.headers
  | .cookies => ep.cookies
  | .query => ep.query
  | .body => ep.body
  | .form_data => ep.form_data

/-- Modelled from the spec (§3; `models.py` is outside the analysed sources):
a `Case` copies `path`, `method`, `base_url` from the `Endpoint` and holds one
generated value per category. -/
structure Case where
  path : String
  method : String
  base_url : String
  path_parameters : Value
  headers : Value
  cookies : Value
  query : Value
  body : Value
  form_data : Value

/-- The generated value a `Case` holds for a category. -/
def Case.fieldOf (c : Case) : Cat → Value
  | .path_parameters => c.path_parameters
  | .headers => c.headers
  | .cookies => c.cookies
  | .query => c.query
  | .body => c.body
  | .form_data => c.form_data

/-- The `static_parameters` dict restricted to the six categories (the fixed
`path`/`method`/`base_url` entries are filled in by `buildCases` directly). -/
abbrev StaticMap := Cat → Option Value

/-- The `strategies` dict. -/
abbrev StratMap := Cat → Option Strategy

/-- Dict update/`pop` on a category-keyed map. -/
def updMap {α : Type} (m : Cat → Option α) (c : Cat) (v : Option α) : Cat → Option α :=
  fun x => if x = c then v else m x

/-- The empty `static_parameters` dict of `get_case_strategy`. -/
def emptyStatic : StaticMap := fun _ => none

/-- The values one category contributes to `st.builds`: the fixed value when
the category is static, the strategy's values otherwise.  In every call site
each category is covered by one of the two; the `Value.vnull` default mirrors
the `None` defaults of the `Case` constructor for a slot that is in neither
dict. -/
def drawsFor (static : Option Value) (strat : Option Strategy) : List Value :=
  match static with
  | some v => [v]
  | none =>
    match strat with
    | some s => s
    | none => [Value.vnull]

/-- Composition `st.builds(partial(Case, **static_parameters), **strategies)`: every
combination of one draw per category, assembled into a `Case` with the
endpoint's fixed fields. -/
def buildCases (ep : Endpoint) (static : StaticMap) (strats : StratMap) : List Case :=
  (drawsFor (static .path_parameters) (strats .path_parameters)).flatMap fun pp =>
  (drawsFor (static .headers) (strats .headers)).flatMap fun hd =>
  (drawsFor (static .cookies) (strats .cookies)).flatMap fun ck =>
  (drawsFor (static .query) (strats .query)).flatMap fun qu =>
  (drawsFor (static .body) (strats .body)).flatMap fun bd =>
  (drawsFor (static .form_data) (strats .form_data)).map fun fd =>
  { path := ep.path, method := ep.method, base_url := ep.base_url,
    path_parameters := pp, headers := hd, cookies := ck, query := qu,
    body := bd, form_data := fd }

/-- Source `_get_case_strategy` (lines 128–142): on `GET` the body is pinned to
`None` and the body strategy is popped; otherwise a body strategy is built
from the body schema unless the caller already fixed a body value. -/
def _get_case_strategy (fromSchema : Engine) (ep : Endpoint)
    (extra_static_parameters : StaticMap) (strategies : StratMap) :
    Except Unit (List Case) :=
  if ep.method = "GET" then
    Except.ok (buildCases ep (updMap extra_static_parameters .body (some .vnull))
      (updMap strategies .body none))
  else
    match extra_static_parameters .body with
    | none =>
      (match fromSchema ep.body with
       | .error e => .error e
       | .ok bodyStrategy =>
         .ok (buildCases ep extra_static_parameters
           (updMap strategies .body (some bodyStrategy))))
    | some _ => .ok (buildCases ep extra_static_parameters strategies)

/-- Modelled from the spec (§7; `exceptions.py` is outside the analysed
sources): the failure raised when a generator cannot be built. -/
inductive InvalidEndpoint where
  | mk

/-- Source `get_case_strategy` (lines 109–125): builds the five non-body strategies
(headers filtered by the validity predicate), delegates body handling, and
translates an engine assertion failure into `InvalidEndpoint`. -/
def get_case_strategy (fromSchema : Engine) (ep : Endpoint) :
    Except InvalidEndpoint (List Case) :=
  match fromSchema ep.path_parameters with
  | .error _ => .error .mk
  | .ok pp =>
  match fromSchema ep.headers with
  | .error _ => .error .mk
  | .ok hd =>
  match fromSchema ep.cookies with
  | .error _ => .error .mk
  | .ok ck =>
  match fromSchema ep.query with
  | .error _ => .error .mk
  | .ok qu =>
  match fromSchema ep.form_data with
  | .error _ => .error .mk
  | .ok fd =>
  match _get_case_strategy fromSchema ep emptyStatic
      (fun c => match c with
        | .path_parameters => some pp
        | .headers => some (hd.filter is_valid_header_value)
        | .cookies => some ck
        | .query => some qu
        | .body => none
        | .form_data => some fd) with
  | .ok cases => .ok cases
  | .error _ => .error .mk

/-- One entry of the dict comprehension of `get_examples`:
`{other: from_schema(getattr(endpoint, other)) for other in PARAMETERS - {name}}`.
Note that **no** validity filter is applied to the headers strategy here, and
that the body schema is translated even though `_get_case_strategy` may pop
the result. -/
def strategyFor (fromSchema : Engine) (ep : Endpoint) (name c : Cat) :
    Except Unit (Option Strategy) :=
  if c = name then .ok none
  else
    match fromSchema (ep.schemaOf c) with
    | .error e => .error e
    | .ok s => .ok (some s)

/-- The per-category translation results of the comprehension, assembled into
the `strategies` dict. -/
def strategiesExcept (fromSchema : Engine) (ep : Endpoint) (name : Cat) :
    Except Unit StratMap :=
  match strategyFor fromSchema ep name .path_parameters with
  | .error e => .error e
  | .ok pp =>
  match strategyFor fromSchema ep name .headers with
  | .error e => .error e
  | .ok hd =>
  match strategyFor fromSchema ep name .cookies with
  | .error e => .error e
  | .ok ck =>
  match strategyFor fromSchema ep name .query with
  | .error e => .error e
  | .ok qu =>
  match strategyFor fromSchema ep name .body with
  | .error e => .error e
  | .ok bd =>
  match strategyFor fromSchema ep name .form_data with
  | .error e => .error e
  | .ok fd =>
  .ok fun c => match c with
    | .path_parameters => pp
    | .headers => hd
    | .cookies => ck
    | .query => qu
    | .body => bd
    | .form_data => fd

/-- One iteration of the `get_examples` loop for a category: nothing when the
category's schema declares no `"example"`; otherwise one case drawn (via
`.example()`, the first producible value) from the composition with that
category pinned to the literal example.  An empty composed strategy makes
`.example()` raise, modelled as an error.  The `handle_warnings` context
only suppresses warnings and has no observable effect in this model. -/
def exampleCaseFor (fromSchema : Engine) (ep : Endpoint) (name : Cat) :
    Except Unit (List Case) :=
  match dictGet (ep.schemaOf name) "example" with
  | none => .ok []
  | some exampleValue =>
    match strategiesExcept fromSchema ep name with
    | .error e => .error e
    | .ok strategies =>
      match _get_case_strategy fromSchema ep
          (updMap (fun _ => none) name (some exampleValue)) strategies with
      | .error e => .error e
      | .ok cases =>
        match cases.head? with
        | some c => .ok [c]
        | none => .error ()

/-- Source `get_examples` (lines 58–65): one extra case per category whose schema
declares a literal `"example"`.  The source iterates a `frozenset`, whose
order is arbitrary; the declaration order is used here. -/
def get_examples (fromSchema : Engine) (ep : Endpoint) : Except Unit (List Case) :=
  match exampleCaseFor fromSchema ep .path_parameters with
  | .error e => .error e
  | .ok l1 =>
  match exampleCaseFor fromSchema ep .headers with
  | .error e => .error e
  | .ok l2 =>
  match exampleCaseFor fromSchema ep .cookies with
  | .error e => .error e
  | .ok l3 =>
  match exampleCaseFor fromSchema ep .query with
  | .error e => .error e
  | .ok l4 =>
  match exampleCaseFor fromSchema ep .body with
  | .error e => .error e
  | .ok l5 =>
  match exampleCaseFor fromSchema ep .form_data with
  | .error e => .error e
  | .ok l6 =>
  .ok (l1 ++ l2 ++ l3 ++ l4 ++ l5 ++ l6)

/-- A dynamically-typed argument as `register_string_format` receives it. -/
inductive PyObject where
  | str : String → PyObject
  | int : Int → PyObject
  | strategyObj : Nat → PyObject
  | other : String → PyObject
deriving DecidableEq

/-- The `STRING_FORMATS` vocabulary of `hypothesis_jsonschema`: format name to
strategy (strategies identified by `Nat` tags). -/
abbrev StringFormats := List (String × Nat)

/-- Source `register_string_format` (lines 145–152): type-check the name, then the
strategy, each raising `TypeError` (the error case) before any mutation; only
then extend `STRING_FORMATS`. -/
def register_string_format (formats : StringFormats) (name strategy : PyObject) :
    Except Unit StringFormats :=
  match name with
  | .str n =>
    (match strategy with
     | .strategyObj s => .ok (dictSet formats n s)
     | _ => .error ())
  | _ => .error ()

/-! ## Serializer Registry (`serializers.py`) -/

/-- A serializer class as the registry stores it: identified by its class
name, with flags recording whether it defines the two methods the
`runtime_checkable` `Serializer` protocol requires (`issubclass` against a
runtime protocol checks method presence). -/
structure SerializerClass where
  clsName : String
  has_as_requests : Bool
  has_as_werkzeug : Bool
deriving DecidableEq

/-- Check `issubclass(serializer, Serializer)` for the structural protocol. -/
def isSerializerProtocol (s : SerializerClass) : Bool :=
  s.has_as_requests && s.has_as_werkzeug

/-- The `SERIALIZERS` dict. -/
abbrev Registry := List (String × SerializerClass)

/-- Source `register(media_type, aliases=...)` applied to a class (lines 66–100):
the protocol check first (raising `TypeError`, the error case, before any
mutation), then the media type and each alias bound to the class in order. -/
def register (d : Registry) (media_type : String) (aliases : List String)
    (serializer : SerializerClass) : Except Unit Registry :=
  if isSerializerProtocol serializer then
    .ok (aliases.foldl (fun acc a => dictSet acc a serializer)
      (dictSet d media_type serializer))
  else .error ()

/-- Source `unregister` (lines 103–105): `del SERIALIZERS[media_type]`, which raises
`KeyError` (the error case) when the key is absent. -/
def unregister (d : Registry) (media_type : String) : Except Unit Registry :=
  if (dictGet d media_type).isSome then .ok (dictDel d media_type) else .error ()

def JSONSerializerClass : SerializerClass := ⟨"JSONSerializer", true, true⟩

def YAMLSerializerClass : SerializerClass := ⟨"YAMLSerializer", true, true⟩

def XMLSerializerClass : SerializerClass := ⟨"XMLSerializer", true, true⟩

def MultipartSerializerClass : SerializerClass := ⟨"MultipartSerializer", true, true⟩

def URLEncodedFormSerializerClass : SerializerClass := ⟨"URLEncodedFormSerializer", true, true⟩

def TextSerializerClass : SerializerClass := ⟨"TextSerializer", true, true⟩

def OctetStreamSerializerClass : SerializerClass := ⟨"OctetStreamSerializer", true, true⟩

/-- A successful registration's registry (every built-in passes the protocol
check, so the error branch is never taken while building the initial
registry). -/
def registerOr (d : Registry) (mt : String) (aliases : List String)
    (s : SerializerClass) : Registry :=
  match register d mt aliases s with
  | .ok r => r
  | .error _ => d

/-- The `SERIALIZERS` dict after module load: the seven `@register`
decorators applied in source order to the initially empty dict. -/
def initialRegistry : Registry :=
  registerOr (registerOr (registerOr (registerOr (registerOr (registerOr (registerOr []
    "application/json" [] JSONSerializerClass)
    "text/yaml" ["text/x-yaml", "application/x-yaml", "text/vnd.yaml"] YAMLSerializerClass)
    "application/xml" [] XMLSerializerClass)
    "multipart/form-data" [] MultipartSerializerClass)
    "application/x-www-form-urlencoded" [] URLEncodedFormSerializerClass)
    "text/plain" [] TextSerializerClass)
    "application/octet-stream" [] OctetStreamSerializerClass

/-- Modelled from the spec (§4.5; `utils.py` is outside the analysed
sources): a media type belongs to the JSON family when it is
`application/json` itself or carries a `+json` structured-syntax suffix. -/
def is_json_media_type (m : String) : Bool :=
  m == "application/json" || "+json".toList.isSuffixOf m.toList

/-- Modelled from the spec (§4.5; `utils.py` is outside the analysed
sources): the plain-text family is `text/plain`. -/
def is_plain_text_media_type (m : String) : Bool :=
  m == "text/plain"

/-- Modelled from the spec (§4.5; `utils.py` is outside the analysed
sources): a media type belongs to the XML family when it is
`application/xml` itself or carries a `+xml` suffix. -/
def is_xml_media_type (m : String) : Bool :=
  m == "application/xml" || "+xml".toList.isSuffixOf m.toList

/-- Source `get` (lines 224–232): normalize the media type through the three family
checks in order, then look the result up; an absent entry is `none`, not an
error. -/
def get (d : Registry) (media_type : String) : Option SerializerClass :=
  let m1 := if is_json_media_type media_type then "application/json" else media_type
  let m2 := if is_plain_text_media_type m1 then "text/plain" else m1
  let m3 := if is_xml_media_type m2 then "application/xml" else m2
  dictGet d m3

/-- Keyword arguments handed to a transport: a dict from argument name to
value (`{"data": ...}` carries a raw body, `{"json": ...}` a structured
one). -/
abbrev Kwargs := List (String × Value)

/-- Source `_to_json` (lines 108–117): bytes pass through as a raw body, `None`
becomes the literal bytes `b"null"`, anything else is a structured `json`
argument. -/
def _to_json (value : Value) : Kwargs :=
  match value with
  | .vbytes bs => [("data", .vbytes bs)]
  | .vnull => [("data", .vbytes (encodeUTF8 "null"))]
  | v => [("json", v)]

/-- The ephemeral per-serialization context (it carries the case; the JSON
serializer never reads it). -/
structure SerializerContext where
  generated_case : Case

/-- Method `JSONSerializer.as_requests` — transport A. -/
def JSONSerializer.as_requests (_context : SerializerContext) (value : Value) : Kwargs :=
  _to_json value

/-- Method `JSONSerializer.as_werkzeug` — transport B. -/
def JSONSerializer.as_werkzeug (_context : SerializerContext) (value : Value) : Kwargs :=
  _to_json value

/-- Source `_should_coerce_to_bytes` (lines 153–156): everything except bytes, text
and integers.  Python's `bool` is a subclass of `int`, so booleans also pass
the `isinstance(item, (bytes, str, int))` test and are not coerced. -/
def _should_coerce_to_bytes (item : Value) : Bool :=
  match item with
  | .vbytes _ => false
  | .vstr _ => false
  | .vint _ => false
  | .vbool _ => false
  | _ => true

/-- Source `_to_bytes` (lines 175–177): `str(value).encode(errors="ignore")`. -/
def _to_bytes (value : Value) : List Nat :=
  encodeUTF8 (pyStr value)

/-- Source `_prepare_form_data` (lines 159–172): list-valued fields are coerced
element-wise, any other field value is coerced when it is not bytes, text or
an integer. -/
def _prepare_form_data (data : List (String × Value)) : List (String × Value) :=
  data.map fun p =>
    match p.2 with
    | .vlist items =>
      (p.1, .vlist (items.map fun item =>
        if _should_coerce_to_bytes item then .vbytes (_to_bytes item) else item))
    | v => (p.1, if _should_coerce_to_bytes v then .vbytes (_to_bytes v) else v)

/-! ## Definitions supporting the claim statements -/

/-- The injection guard stated from the spec's words: the value contains a
carriage return or line feed that is not immediately followed by a horizontal
whitespace character (tab or space). -/
def hasBareCRLF : List Char → Bool
  | [] => false
  | c :: rest =>
    if isCRorLF c then
      (match rest with
       | [] => true
       | d :: _ => if isSpaceTab d then hasBareCRLF rest else true)
    else hasBareCRLF rest

/-- The multipart coercion rule for one element, stated from the spec's
words: values already bytes, text or integers (Python booleans are
integers) are kept; anything else is replaced by its string representation
encoded to bytes. -/
def spec_multipart_coerce_elem (v : Value) : Value :=
  match v with
  | .vbytes bs => .vbytes bs
  | .vstr s => .vstr s
  | .vint n => .vint n
  | .vbool b => .vbool b
  | v => .vbytes (_to_bytes v)

/-- The multipart coercion rule for one field, stated from the spec's words:
list values are coerced element-wise, others directly. -/
def spec_multipart_coerce_field (v : Value) : Value :=
  match v with
  | .vlist items => .vlist (items.map spec_multipart_coerce_elem)
  | v => spec_multipart_coerce_elem v

/-- A conforming user-supplied serializer for the round-trip witness. -/
def CSVSerializerClass : SerializerClass := ⟨"CSVSerializer", true, true⟩

/-- The registry after registering the CSV serializer. -/
def csvRegistry : Registry :=
  registerOr initialRegistry "application/csv" ["text/csv"] CSVSerializerClass

/-- A concrete case and context for serializer witnesses. -/
def sampleCase : Case :=
  { path := "/users", method := "GET", base_url := "http://localhost",
    path_parameters := .vobj [], headers := .vobj [], cookies := .vobj [],
    query := .vobj [], body := .vnull, form_data := .vobj [] }

/-- The context wrapping `sampleCase`. -/
def sampleContext : SerializerContext := ⟨sampleCase⟩

/-- Predicate `Except.isOk` as a plain definition. -/
def isOkB {ε α : Type} : Except ε α → Bool
  | .ok _ => true
  | .error _ => false

/-- The six categories in declaration order. -/
def categoriesList : List Cat :=
  [.path_parameters, .headers, .cookies, .query, .body, .form_data]

/-- The categories whose schema declares a literal `"example"`. -/
def categoriesWithExample (ep : Endpoint) : List Cat :=
  categoriesList.filter fun c => (dictGet (ep.schemaOf c) "example").isSome

/-- An engine whose every strategy produces one valid-header dict. -/
def plainEngine : Engine := fun _ =>
  .ok [Value.vobj [("X-Key", Value.vstr "ok")]]

/-- An engine that fails on every schema. -/
def alwaysFailEngine : Engine := fun _ => .error ()

/-- An engine for counterexamples: a schema with the `"hdr"` marker key
generates one dict with a bare carriage return in a header value, any other
schema generates one empty dict. -/
def crlfHeaderEngine : Engine := fun schema =>
  if (dictGet schema "hdr").isSome then
    .ok [Value.vobj [("X-Key", Value.vstr "a\rb")]]
  else .ok [Value.vobj []]

/-- A POST endpoint whose query schema declares an example and whose headers
schema carries the `"hdr"` marker. -/
def crlfHeaderEndpoint : Endpoint :=
  { path := "/users", method := "POST", base_url := "http://test",
    path_parameters := [], headers := [("hdr", Value.vnull)], cookies := [],
    query := [("example", Value.vobj [("q", Value.vstr "x")])],
    body := [], form_data := [] }

/-- The single example case extracted for `crlfHeaderEndpoint`. -/
def crlfHeaderCase : Case :=
  { path := "/users", method := "POST", base_url := "http://test",
    path_parameters := Value.vobj [],
    headers := Value.vobj [("X-Key", Value.vstr "a\rb")],
    cookies := Value.vobj [], query := Value.vobj [("q", Value.vstr "x")],
    body := Value.vobj [], form_data := Value.vobj [] }

/-- An engine that fails exactly on schemas carrying the `"badbody"` marker
key. -/
def bodyFailEngine : Engine := fun schema =>
  if (dictGet schema "badbody").isSome then .error ()
  else .ok [Value.vobj []]

/-- An engine producing one empty dict for every schema. -/
def emptyObjEngine : Engine := fun _ => .ok [Value.vobj []]

/-- A GET endpoint with a query example and a body schema on which the
translation engine fails. -/
def bodyFailGetEndpoint : Endpoint :=
  { path := "/", method := "GET", base_url := "http://t",
    path_parameters := [], headers := [], cookies := [],
    query := [("example", Value.vobj [("q", Value.vstr "x")])],
    body := [("badbody", Value.vnull)], form_data := [] }

/-- The one case the randomized strategy produces for `bodyFailGetEndpoint`
under `bodyFailEngine`. -/
def emptyObjGetCase : Case :=
  { path := "/", method := "GET", base_url := "http://t",
    path_parameters := Value.vobj [], headers := Value.vobj [],
    cookies := Value.vobj [], query := Value.vobj [],
    body := Value.vnull, form_data := Value.vobj [] }

/-- A GET endpoint with empty schemas for the C1 witness. -/
def plainGetEndpoint : Endpoint :=
  { path := "/", method := "GET", base_url := "http://t",
    path_parameters := [], headers := [], cookies := [],
    query := [], body := [], form_data := [] }

/-- The case `plainEngine` produces for `plainGetEndpoint`. -/
def plainGetCase : Case :=
  { path := "/", method := "GET", base_url := "http://t",
    path_parameters := Value.vobj [("X-Key", Value.vstr "ok")],
    headers := Value.vobj [("X-Key", Value.vstr "ok")],
    cookies := Value.vobj [("X-Key", Value.vstr "ok")],
    query := Value.vobj [("X-Key", Value.vstr "ok")],
    body := Value.vnull,
    form_data := Value.vobj [("X-Key", Value.vstr "ok")] }

/-- A POST endpoint with a query example for the C8 witness. -/
def queryExampleEndpoint : Endpoint :=
  { path := "/q", method := "POST", base_url := "http://t",
    path_parameters := [], headers := [], cookies := [],
    query := [("example", Value.vobj [("q", Value.vstr "x")])],
    body := [], form_data := [] }

/-- The example case `plainEngine` extracts for `queryExampleEndpoint`. -/
def queryExampleCase : Case :=
  { path := "/q", method := "POST", base_url := "http://t",
    path_parameters := Value.vobj [("X-Key", Value.vstr "ok")],
    headers := Value.vobj [("X-Key", Value.vstr "ok")],
    cookies := Value.vobj [("X-Key", Value.vstr "ok")],
    query := Value.vobj [("q", Value.vstr "x")],
    body := Value.vobj [("X-Key", Value.vstr "ok")],
    form_data := Value.vobj [("X-Key", Value.vstr "ok")] }

/-! ## Dict model lemmas -/

theorem dictGet_dictSet_self {α : Type} (d : List (String × α)) (k : String) (v : α) :
    dictGet (dictSet d k v) k = some v := by
  induction d with
  | nil => simp [dictGet, dictSet]
  | cons p rest ih =>
    by_cases h : p.1 = k
    · simp [dictSet, dictGet, h]
    · simp [dictSet, dictGet, h, ih]

theorem dictGet_dictSet_ne {α : Type} (d : List (String × α)) {k k' : String} (v : α)
    (h : k' ≠ k) : dictGet (dictSet d k v) k' = dictGet d k' := by
  induction d with
  | nil => simp [dictGet, dictSet, Ne.symm h]
  | cons p rest ih =>
    by_cases hp : p.1 = k
    · subst hp
      simp [dictSet, dictGet, Ne.symm h]
    · simp [dictSet, dictGet, hp, ih]

theorem mem_keys_dictSet {α : Type} (d : List (String × α)) (k x : String) (v : α) :
    x ∈ (dictSet d k v).map Prod.fst ↔ x = k ∨ x ∈ d.map Prod.fst := by
  induction d with
  | nil => simp [dictSet]
  | cons p rest ih =>
    by_cases hp : p.1 = k
    · subst hp
      simp [dictSet]
    · simp [dictSet, hp, ih]
      tauto

theorem keysNodup_dictSet {α : Type} (d : List (String × α)) (k : String) (v : α)
    (h : keysNodup d) : keysNodup (dictSet d k v) := by
  induction d with
  | nil => simp [dictSet, keysNodup]
  | cons p rest ih =>
    unfold keysNodup at *
    by_cases hp : p.1 = k
    · subst hp
      simpa [dictSet] using h
    · simp only [List.map_cons, List.nodup_cons] at h
      obtain ⟨h1, h2⟩ := h
      simp only [dictSet]
      rw [if_neg hp]
      simp only [List.map_cons, List.nodup_cons]
      refine ⟨?_, ih h2⟩
      rw [mem_keys_dictSet]
      rintro (rfl | hx)
      · exact hp rfl
      · exact h1 hx

theorem dictGet_eq_none_of_not_mem {α : Type} (d : List (String × α)) (k : String)
    (h : k ∉ d.map Prod.fst) : dictGet d k = none := by
  induction d with
  | nil => rfl
  | cons p rest ih =>
    simp only [List.map_cons, List.mem_cons] at h
    push_neg at h
    have hne : ¬ p.1 = k := fun he => h.1 he.symm
    simp [dictGet, hne, ih h.2]

theorem dictGet_dictDel_self {α : Type} (d : List (String × α)) (k : String)
    (h : keysNodup d) : dictGet (dictDel d k) k = none := by
  induction d with
  | nil => rfl
  | cons p rest ih =>
    unfold keysNodup at h
    simp only [List.map_cons, List.nodup_cons] at h
    obtain ⟨h1, h2⟩ := h
    by_cases hp : p.1 = k
    · simp only [dictDel, hp, if_pos]
      exact dictGet_eq_none_of_not_mem rest k (hp ▸ h1)
    · simp [dictDel, dictGet, hp]
      exact ih h2

theorem dictGet_foldl_set {α : Type} (aliases : List String) (base : List (String × α))
    (v : α) (a : String) :
    dictGet (aliases.foldl (fun acc x => dictSet acc x v) base) a
      = if a ∈ aliases then some v else dictGet base a := by
  induction aliases generalizing base with
  | nil => simp
  | cons x xs ih =>
    rw [List.foldl_cons, ih]
    by_cases hax : a ∈ xs
    · simp [hax]
    · by_cases haxx : a = x
      · subst haxx
        simp [hax, dictGet_dictSet_self]
      · simp [hax, haxx, dictGet_dictSet_ne base v haxx]

theorem keysNodup_foldl_set {α : Type} (aliases : List String) (base : List (String × α))
    (v : α) (h : keysNodup base) :
    keysNodup (aliases.foldl (fun acc x => dictSet acc x v) base) := by
  induction aliases generalizing base with
  | nil => simpa
  | cons x xs ih => exact ih _ (keysNodup_dictSet base x v h)

/-! ## Normalization lemmas for serializer lookup -/

theorem suffix_json_xml_false (m : String)
    (h1 : List.isSuffixOf "+json".toList m.toList = true)
    (h2 : List.isSuffixOf "+xml".toList m.toList = true) : False := by
  rw [List.isSuffixOf_iff_suffix] at h1 h2
  rcases List.suffix_or_suffix_of_suffix h1 h2 with h | h
  · have hl := h.length_le
    revert hl; decide
  · revert h; decide

theorem is_json_of_xml_false (m : String) (hx : is_xml_media_type m = true) :
    is_json_media_type m = false := by
  simp only [is_xml_media_type, Bool.or_eq_true, beq_iff_eq] at hx
  rw [Bool.eq_false_iff]
  intro hj
  simp only [is_json_media_type, Bool.or_eq_true, beq_iff_eq] at hj
  rcases hj with rfl | hj
  · rcases hx with hx | hx
    · exact absurd hx (by decide)
    · revert hx; decide
  · rcases hx with rfl | hx
    · revert hj; decide
    · exact suffix_json_xml_false _ hj hx

theorem is_plain_of_xml_false (m : String) (hx : is_xml_media_type m = true) :
    is_plain_text_media_type m = false := by
  simp only [is_xml_media_type, Bool.or_eq_true, beq_iff_eq] at hx
  rw [Bool.eq_false_iff]
  intro hp
  simp only [is_plain_text_media_type, beq_iff_eq] at hp
  subst hp
  rcases hx with hx | hx
  · exact absurd hx (by decide)
  · revert hx; decide

theorem get_norm_json (d : Registry) (m : String) (h : is_json_media_type m = true) :
    get d m = dictGet d "application/json" := by
  have h2 : is_plain_text_media_type "application/json" = false := by decide
  have h3 : is_xml_media_type "application/json" = false := by decide
  simp [get, h, h2, h3]

theorem get_norm_plain (d : Registry) (m : String)
    (h : is_plain_text_media_type m = true) :
    get d m = dictGet d "text/plain" := by
  simp only [is_plain_text_media_type, beq_iff_eq] at h
  subst h
  have h1 : is_json_media_type "text/plain" = false := by decide
  have h3 : is_xml_media_type "text/plain" = false := by decide
  simp [get, h1, h3, is_plain_text_media_type]

theorem get_norm_xml (d : Registry) (m : String) (h : is_xml_media_type m = true) :
    get d m = dictGet d "application/xml" := by
  have h1 := is_json_of_xml_false m h
  have h2 := is_plain_of_xml_false m h
  simp [get, h1, h2, h]

theorem get_norm_literal (d : Registry) (m : String)
    (h1 : is_json_media_type m = false) (h2 : is_plain_text_media_type m = false)
    (h3 : is_xml_media_type m = false) : get d m = dictGet d m := by
  simp [get, h1, h2, h3]

/-! ## Claim theorems: serializer registry -/

/-- C6: Serializer lookup normalizes the media type before consulting the
registry: JSON-family media types are looked up under `application/json`,
plain-text-family under `text/plain`, XML-family under `application/xml`, any
other media type under its literal string, and a key with no entry after
normalization yields `none` rather than an error.  Concretely,
`application/ld+json` and `application/json` resolve to the same registered
JSON serializer, while `application/pdf` has no serializer. -/
theorem get_serializer_normalization :
    (∀ (d : Registry) (m : String), is_json_media_type m = true →
      get d m = dictGet d "application/json")
    ∧ (∀ (d : Registry) (m : String), is_plain_text_media_type m = true →
      get d m = dictGet d "text/plain")
    ∧ (∀ (d : Registry) (m : String), is_xml_media_type m = true →
      get d m = dictGet d "application/xml")
    ∧ (∀ (d : Registry) (m : String), is_json_media_type m = false →
      is_plain_text_media_type m = false → is_xml_media_type m = false →
      get d m = dictGet d m)
    ∧ (∀ (d : Registry) (m : String), is_json_media_type m = false →
      is_plain_text_media_type m = false → is_xml_media_type m = false →
      dictGet d m = none → get d m = none)
    ∧ get initialRegistry "application/ld+json" = some JSONSerializerClass
    ∧ get initialRegistry "application/json" = some JSONSerializerClass
    ∧ get initialRegistry "application/pdf" = none :=
  ⟨get_norm_json, get_norm_plain, get_norm_xml, get_norm_literal,
   fun d m h1 h2 h3 h4 => (get_norm_literal d m h1 h2 h3).trans h4,
   by decide, by decide, by decide⟩

/-- Witness for C6: the normalization clauses applied at concrete media
types. -/
theorem get_serializer_normalization_witness :
    get initialRegistry "application/problem+json"
      = dictGet initialRegistry "application/json"
    ∧ get initialRegistry "text/plain" = dictGet initialRegistry "text/plain"
    ∧ get initialRegistry "image/svg+xml" = dictGet initialRegistry "application/xml"
    ∧ get initialRegistry "application/octet-stream"
      = dictGet initialRegistry "application/octet-stream" :=
  ⟨get_serializer_normalization.1 initialRegistry _ (by decide),
   get_serializer_normalization.2.1 initialRegistry _ (by decide),
   get_serializer_normalization.2.2.1 initialRegistry _ (by decide),
   get_serializer_normalization.2.2.2.1 initialRegistry _
     (by decide) (by decide) (by decide)⟩

/-- C7: Registering a conforming serializer under a media type not captured
by pattern normalization (plus aliases) makes lookups of that media type and
of each alias return it; unregistering the media type then makes its lookup
return `none`; keys stay unique (at most one serializer per key), and
re-registering under the same key overwrites the previous entry. -/
theorem register_unregister_round_trip
    (d r : Registry) (mt : String) (aliases : List String) (s s2 : SerializerClass)
    (hnodup : keysNodup d)
    (hjson : is_json_media_type mt = false)
    (hplain : is_plain_text_media_type mt = false)
    (hxml : is_xml_media_type mt = false)
    (hconf2 : isSerializerProtocol s2 = true)
    (hreg : register d mt aliases s = Except.ok r) :
    get r mt = some s
    ∧ (∀ a ∈ aliases, is_json_media_type a = false →
        is_plain_text_media_type a = false → is_xml_media_type a = false →
        get r a = some s)
    ∧ keysNodup r
    ∧ unregister r mt = Except.ok (dictDel r mt)
    ∧ get (dictDel r mt) mt = none
    ∧ register r mt [] s2 = Except.ok (dictSet r mt s2)
    ∧ get (dictSet r mt s2) mt = some s2
    ∧ keysNodup (dictSet r mt s2) := by
  unfold register at hreg
  by_cases hc : isSerializerProtocol s = true
  case neg => simp [hc] at hreg
  rw [if_pos hc] at hreg
  cases hreg
  have hget : dictGet (aliases.foldl (fun acc x => dictSet acc x s) (dictSet d mt s)) mt
      = some s := by
    rw [dictGet_foldl_set]
    by_cases hmem : mt ∈ aliases <;> simp [hmem, dictGet_dictSet_self]
  have hnodup' :
      keysNodup (aliases.foldl (fun acc x => dictSet acc x s) (dictSet d mt s)) :=
    keysNodup_foldl_set aliases _ s (keysNodup_dictSet d mt s hnodup)
  refine ⟨?_, ?_, hnodup', ?_, ?_, ?_, ?_, ?_⟩
  · rw [get_norm_literal _ _ hjson hplain hxml]
    exact hget
  · intro a ha haj hap hax
    rw [get_norm_literal _ _ haj hap hax, dictGet_foldl_set]
    simp [ha]
  · simp [unregister, hget]
  · rw [get_norm_literal _ _ hjson hplain hxml]
    exact dictGet_dictDel_self _ mt hnodup'
  · simp [register, hconf2]
  · rw [get_norm_literal _ _ hjson hplain hxml]
    exact dictGet_dictSet_self _ mt s2
  · exact keysNodup_dictSet _ mt s2 hnodup'

/-- Witness for C7: the round trip at `application/csv` with alias
`text/csv` over the built-in registry. -/
theorem register_unregister_round_trip_witness :
    get csvRegistry "application/csv" = some CSVSerializerClass
    ∧ get csvRegistry "text/csv" = some CSVSerializerClass
    ∧ get (dictDel csvRegistry "application/csv") "application/csv" = none
    ∧ get (dictSet csvRegistry "application/csv" XMLSerializerClass) "application/csv"
      = some XMLSerializerClass := by
  have h := register_unregister_round_trip initialRegistry csvRegistry
    "application/csv" ["text/csv"] CSVSerializerClass XMLSerializerClass
    (by decide) (by decide) (by decide) (by decide) (by decide) rfl
  exact ⟨h.1, h.2.1 "text/csv" (by decide) (by decide) (by decide) (by decide),
    h.2.2.2.2.1, h.2.2.2.2.2.2.1⟩

/-- C9: Registration type mismatches fail atomically.  The error result
models the `TypeError` being raised before the vocabulary or registry is
touched, so the prior state is returned unchanged to the caller; the
successful cases show the only mutation ever performed. -/
theorem registration_type_errors :
    (∀ (formats : StringFormats) (name strategy : PyObject),
      (∀ s, name ≠ PyObject.str s) →
      register_string_format formats name strategy = Except.error ())
    ∧ (∀ (formats : StringFormats) (name strategy : PyObject),
      (∀ t, strategy ≠ PyObject.strategyObj t) →
      register_string_format formats name strategy = Except.error ())
    ∧ (∀ (formats : StringFormats) (n : String) (t : Nat),
      register_string_format formats (PyObject.str n) (PyObject.strategyObj t)
        = Except.ok (dictSet formats n t))
    ∧ (∀ (d : Registry) (mt : String) (aliases : List String) (s : SerializerClass),
      isSerializerProtocol s = false → register d mt aliases s = Except.error ()) := by
  refine ⟨?_, ?_, ?_, ?_⟩
  · intro formats name strategy h
    cases name with
    | str n => exact absurd rfl (h n)
    | int n => rfl
    | strategyObj t => rfl
    | other o => rfl
  · intro formats name strategy h
    cases name with
    | str n =>
      cases strategy with
      | strategyObj t => exact absurd rfl (h t)
      | str s => rfl
      | int n => rfl
      | other o => rfl
    | int n => rfl
    | strategyObj t => rfl
    | other o => rfl
  · intro formats n t
    rfl
  · intro d mt aliases s h
    simp [register, h]

/-- Witness for C9: `register_string_format("custom", 42)` fails with a type
error, and registering a class missing `as_werkzeug` fails the protocol
check. -/
theorem registration_type_errors_witness :
    register_string_format [] (PyObject.str "custom") (PyObject.int 42)
      = Except.error ()
    ∧ register [] "text/csv" [] ⟨"BadSerializer", true, false⟩ = Except.error () :=
  ⟨registration_type_errors.2.1 [] (PyObject.str "custom") (PyObject.int 42)
     (fun _ h => PyObject.noConfusion h),
   registration_type_errors.2.2.2 [] "text/csv" [] ⟨"BadSerializer", true, false⟩ rfl⟩

/-! ## Claim theorems: built-in serializers -/

/-- C4: The JSON serializer behaves identically for the two transports:
bytes payloads become a raw-body `data` argument with those bytes, `None`
becomes the `data` argument holding the literal bytes `b"null"`
(`[110, 117, 108, 108]`), and every other payload becomes a structured
`json` argument holding the value. -/
theorem json_serializer_spec (context : SerializerContext) (value : Value) :
    JSONSerializer.as_requests context value = JSONSerializer.as_werkzeug context value
    ∧ (∀ bs, value = Value.vbytes bs →
        JSONSerializer.as_requests context value = [("data", Value.vbytes bs)])
    ∧ (value = Value.vnull →
        JSONSerializer.as_requests context value
          = [("data", Value.vbytes [110, 117, 108, 108])])
    ∧ ((∀ bs, value ≠ Value.vbytes bs) → value ≠ Value.vnull →
        JSONSerializer.as_requests context value = [("json", value)]) := by
  refine ⟨rfl, ?_, ?_, ?_⟩
  · rintro bs rfl
    rfl
  · rintro rfl
    rfl
  · intro h1 h2
    cases value with
    | vnull => exact absurd rfl h2
    | vbytes bs => exact absurd rfl (h1 bs)
    | vbool b => rfl
    | vint n => rfl
    | vfloat r => rfl
    | vstr s => rfl
    | vlist xs => rfl
    | vobj fs => rfl

/-- Witness for C4: the dict payload `{"a": 1}` yields a structured `json`
argument and `None` yields the raw bytes `b"null"`. -/
theorem json_serializer_spec_witness :
    JSONSerializer.as_requests sampleContext (Value.vobj [("a", Value.vint 1)])
      = [("json", Value.vobj [("a", Value.vint 1)])]
    ∧ JSONSerializer.as_requests sampleContext Value.vnull
      = [("data", Value.vbytes [110, 117, 108, 108])] :=
  ⟨(json_serializer_spec sampleContext (Value.vobj [("a", Value.vint 1)])).2.2.2
     (fun _ h => Value.noConfusion h) (fun h => Value.noConfusion h),
   (json_serializer_spec sampleContext Value.vnull).2.2.1 rfl⟩

theorem coerce_elem_eq (v : Value) :
    (if _should_coerce_to_bytes v then Value.vbytes (_to_bytes v) else v)
      = spec_multipart_coerce_elem v := by
  cases v <;> rfl

/-- C5: Multipart coercion maps every field through the spec's rule — values
that are not bytes, text or integers are replaced by their string
representation encoded to bytes, lists element-wise, everything else kept —
with the spec's concrete examples evaluated. -/
theorem prepare_form_data_spec (data : List (String × Value)) :
    _prepare_form_data data = data.map (fun p => (p.1, spec_multipart_coerce_field p.2))
    ∧ _prepare_form_data [("f", Value.vfloat "3.14")]
      = [("f", Value.vbytes [51, 46, 49, 52])]
    ∧ _prepare_form_data [("f", Value.vstr "text")] = [("f", Value.vstr "text")]
    ∧ _prepare_form_data [("f", Value.vlist [Value.vint 1, Value.vfloat "3.14"])]
      = [("f", Value.vlist [Value.vint 1, Value.vbytes [51, 46, 49, 52]])] := by
  refine ⟨?_, rfl, rfl, rfl⟩
  unfold _prepare_form_data
  apply List.map_congr_left
  intro p _
  obtain ⟨k, v⟩ := p
  cases v with
  | vlist items =>
    have hf : (fun item => if _should_coerce_to_bytes item
        then Value.vbytes (_to_bytes item) else item) = spec_multipart_coerce_elem :=
      funext coerce_elem_eq
    simp only [spec_multipart_coerce_field, hf]
  | vnull => rfl
  | vbool b => rfl
  | vint n => rfl
  | vfloat r => rfl
  | vstr s => rfl
  | vbytes bs => rfl
  | vobj fs => rfl

/-! ## Claim theorems: Header Validity Filter -/

theorem bare_of_re_search (l : List Char) (h : invalid_header_re_search l = true) :
    hasBareCRLF l = true := by
  induction l with
  | nil => simp [invalid_header_re_search] at h
  | cons c rest ih =>
    by_cases hn : c = '\n'
    · subst hn
      cases rest with
      | nil => decide
      | cons d rest' =>
        simp only [invalid_header_re_search, if_pos rfl] at h
        simp only [hasBareCRLF, if_pos (show isCRorLF '\n' = true by decide)]
        by_cases hd : isSpaceTab d = true
        · rw [if_pos hd] at h ⊢
          exact ih h
        · rw [if_neg hd]
    · by_cases hr : c = '\r'
      · subst hr
        cases rest with
        | nil => decide
        | cons d rest' =>
          simp only [invalid_header_re_search,
            if_neg (show ¬('\r' : Char) = '\n' by decide), if_pos rfl] at h
          simp only [hasBareCRLF, if_pos (show isCRorLF '\r' = true by decide)]
          by_cases hd : isSpaceTab d = true
          · rw [if_pos hd]
            have hd' : isSpaceTabLF d = true := by
              simp only [isSpaceTab, Bool.or_eq_true, decide_eq_true_eq] at hd
              simp only [isSpaceTabLF, Bool.or_eq_true, decide_eq_true_eq]
              tauto
            rw [if_pos hd'] at h
            exact ih h
          · rw [if_neg hd]
      · simp only [invalid_header_re_search, if_neg hn, if_neg hr] at h
        have hc : ¬ isCRorLF c = true := by
          simp [isCRorLF, Bool.or_eq_true]
          exact ⟨hr, hn⟩
        simp only [hasBareCRLF, if_neg hc]
        exact ih h

theorem contains_of_bare (l : List Char) (h : hasBareCRLF l = true) :
    '\r' ∈ l ∨ '\n' ∈ l := by
  induction l with
  | nil => simp [hasBareCRLF] at h
  | cons c rest ih =>
    by_cases hc : isCRorLF c = true
    · simp only [isCRorLF, Bool.or_eq_true, decide_eq_true_eq] at hc
      rcases hc with rfl | rfl
      · exact Or.inl (List.mem_cons_self _ _)
      · exact Or.inr (List.mem_cons_self _ _)
    · simp only [hasBareCRLF, if_neg hc] at h
      rcases ih h with hm | hm
      · exact Or.inl (List.mem_cons_of_mem c hm)
      · exact Or.inr (List.mem_cons_of_mem c hm)

theorem check_fails_of_contains (name v : String)
    (h : '\r' ∈ v.toList ∨ '\n' ∈ v.toList) :
    check_header_validity_ok name v = false := by
  have hex : ∃ x : Char, (x = '\r' ∨ x = '\n') ∧ x ∈ v.toList := by
    rcases h with h | h
    · exact ⟨'\r', Or.inl rfl, h⟩
    · exact ⟨'\n', Or.inr rfl, h⟩
  obtain ⟨x, hx, hmem⟩ := hex
  unfold check_header_validity_ok
  cases hv : v.toList with
  | nil =>
    rw [hv] at hmem
    simp at hmem
  | cons c rest =>
    rw [hv] at hmem
    rw [checkValuePattern]
    rcases List.mem_cons.mp hmem with rfl | hr
    · have hsp : isPySpace x = true := by
        rcases hx with rfl | rfl <;> decide
      simp [hsp]
    · have hall : (rest.all fun d => !(isCRorLF d)) = false := by
        rw [List.all_eq_false]
        refine ⟨x, hr, ?_⟩
        rcases hx with rfl | rfl <;> decide
      simp [hall]

/-- One entry fails the source filter exactly when it fails one of the three
conditions of the claim. -/
theorem entry_invalid_iff (name v : String) :
    (_is_latin_1_encodable v = false ∨ _has_invalid_characters name v = true)
      ↔ (_is_latin_1_encodable v = false ∨ check_header_validity_ok name v = false
          ∨ hasBareCRLF v.toList = true) := by
  constructor
  · rintro (h | h)
    · exact Or.inl h
    · unfold _has_invalid_characters at h
      by_cases hc : check_header_validity_ok name v = true
      · rw [if_pos hc] at h
        exact Or.inr (Or.inr (bare_of_re_search _ h))
      · exact Or.inr (Or.inl (Bool.eq_false_iff.mpr hc))
  · rintro (h | h | h)
    · exact Or.inl h
    · refine Or.inr ?_
      unfold _has_invalid_characters
      rw [if_neg (by simp [h])]
    · refine Or.inr ?_
      have hcf := check_fails_of_contains name v (contains_of_bare _ h)
      unfold _has_invalid_characters
      rw [if_neg (by simp [hcf])]

theorem is_valid_header_false_iff (hs : List (String × String)) :
    is_valid_header hs = false ↔
      ∃ p ∈ hs, _is_latin_1_encodable p.2 = false
        ∨ check_header_validity_ok p.1 p.2 = false
        ∨ hasBareCRLF p.2.toList = true := by
  induction hs with
  | nil => simp [is_valid_header]
  | cons p rest ih =>
    obtain ⟨n, v⟩ := p
    rw [is_valid_header]
    by_cases hlat : _is_latin_1_encodable v = true
    · rw [hlat]
      rw [if_neg (by decide : ¬((!true) = true))]
      by_cases hinv : _has_invalid_characters n v = true
      · rw [if_pos hinv]
        constructor
        · intro _
          exact ⟨(n, v), List.mem_cons_self _ _, (entry_invalid_iff n v).mp (Or.inr hinv)⟩
        · intro _
          rfl
      · rw [if_neg hinv, ih]
        have hnofail : ¬(_is_latin_1_encodable v = false
            ∨ check_header_validity_ok n v = false ∨ hasBareCRLF v.toList = true) := by
          intro hcon
          rcases (entry_invalid_iff n v).mpr hcon with h | h
          · rw [hlat] at h
            cases h
          · exact hinv h
        constructor
        · rintro ⟨q, hq, hfail⟩
          exact ⟨q, List.mem_cons_of_mem _ hq, hfail⟩
        · rintro ⟨q, hq, hfail⟩
          rcases List.mem_cons.mp hq with rfl | hq'
          · exact absurd hfail hnofail
          · exact ⟨q, hq', hfail⟩
    · have hlat' : _is_latin_1_encodable v = false := Bool.eq_false_iff.mpr hlat
      rw [hlat']
      rw [if_pos (by decide : (!false) = true)]
      constructor
      · intro _
        exact ⟨(n, v), List.mem_cons_self _ _, Or.inl hlat'⟩
      · intro _
        rfl

/-- C3: `is_valid_header` is a pure predicate on a header mapping that is
`false` exactly when some entry fails Latin-1 encodability, fails the HTTP
header syntax validation, or contains a bare CR/LF not immediately followed
by tab or space; in particular any entry with such a bare CR/LF makes the
whole mapping invalid. -/
theorem is_valid_header_characterization (headers : List (String × String)) :
    (is_valid_header headers = false ↔
      ∃ p ∈ headers, _is_latin_1_encodable p.2 = false
        ∨ check_header_validity_ok p.1 p.2 = false
        ∨ hasBareCRLF p.2.toList = true)
    ∧ (∀ p ∈ headers, hasBareCRLF p.2.toList = true →
        is_valid_header headers = false) :=
  ⟨is_valid_header_false_iff headers,
   fun p hp hb => (is_valid_header_false_iff headers).mpr
     ⟨p, hp, Or.inr (Or.inr hb)⟩⟩

/-- Witness for C3: the mapping `{"X-Key": "a\rb"}` has a bare carriage
return and is rejected, while `{"X-Key": "plain"}` is accepted. -/
theorem is_valid_header_characterization_witness :
    is_valid_header [("X-Key", "a\rb")] = false
    ∧ is_valid_header [("X-Key", "plain")] = true :=
  ⟨(is_valid_header_characterization [("X-Key", "a\rb")]).2 ("X-Key", "a\rb")
     (List.mem_cons_self _ _) (by decide),
   by decide⟩

/-! ## Strategy composition lemmas -/

theorem updMap_self {α : Type} (m : Cat → Option α) (c : Cat) (v : Option α) :
    updMap m c v c = v := by
  simp [updMap]

theorem updMap_ne {α : Type} (m : Cat → Option α) {c x : Cat} (v : Option α)
    (h : x ≠ c) : updMap m c v x = m x := by
  simp [updMap, h]

theorem mem_of_head?_eq {α : Type} {l : List α} {a : α} (h : l.head? = some a) :
    a ∈ l := by
  cases l with
  | nil => simp at h
  | cons x t =>
    simp only [List.head?_cons, Option.some.injEq] at h
    subst h
    exact List.mem_cons_self _ _

/-- Membership in `st.builds`' output: the fixed fields come from the
endpoint and each category's value is one of that category's draws. -/
theorem mem_buildCases (ep : Endpoint) (static : StaticMap) (strats : StratMap)
    (c : Case) :
    c ∈ buildCases ep static strats ↔
      c.path = ep.path ∧ c.method = ep.method ∧ c.base_url = ep.base_url
      ∧ ∀ cat : Cat, c.fieldOf cat ∈ drawsFor (static cat) (strats cat) := by
  unfold buildCases
  simp only [List.mem_flatMap, List.mem_map]
  constructor
  · rintro ⟨pp, hpp, hd, hhd, ck, hck, qu, hqu, bd, hbd, fd, hfd, rfl⟩
    refine ⟨rfl, rfl, rfl, ?_⟩
    intro cat
    cases cat with
    | path_parameters => exact hpp
    | headers => exact hhd
    | cookies => exact hck
    | query => exact hqu
    | body => exact hbd
    | form_data => exact hfd
  · obtain ⟨cp, cm, cb, cpp, chd, cck, cqu, cbd, cfd⟩ := c
    rintro ⟨h1, h2, h3, h4⟩
    simp only at h1 h2 h3
    subst h1
    subst h2
    subst h3
    exact ⟨cpp, h4 .path_parameters, chd, h4 .headers, cck, h4 .cookies,
      cqu, h4 .query, cbd, h4 .body, cfd, h4 .form_data, rfl⟩

/-- Inversion of `_get_case_strategy`'s success: the three source branches. -/
theorem _get_case_strategy_ok_inv (fromSchema : Engine) (ep : Endpoint)
    (extra : StaticMap) (strategies : StratMap) (cases : List Case)
    (hok : _get_case_strategy fromSchema ep extra strategies = Except.ok cases) :
    (ep.method = "GET" ∧
      cases = buildCases ep (updMap extra .body (some .vnull))
        (updMap strategies .body none))
    ∨ (ep.method ≠ "GET" ∧ extra .body = none ∧
      ∃ bs, fromSchema ep.body = Except.ok bs ∧
        cases = buildCases ep extra (updMap strategies .body (some bs)))
    ∨ (ep.method ≠ "GET" ∧ (∃ v, extra .body = some v) ∧
      cases = buildCases ep extra strategies) := by
  unfold _get_case_strategy at hok
  by_cases hm : ep.method = "GET"
  · rw [if_pos hm] at hok
    exact Or.inl ⟨hm, (Except.ok.inj hok).symm⟩
  · rw [if_neg hm] at hok
    cases hb : extra .body with
    | none =>
      simp only [hb] at hok
      cases hf : fromSchema ep.body with
      | error e =>
        simp only [hf] at hok
        exact Except.noConfusion hok
      | ok bs =>
        simp only [hf] at hok
        exact Or.inr (Or.inl ⟨hm, rfl, bs, rfl, (Except.ok.inj hok).symm⟩)
    | some v =>
      simp only [hb] at hok
      exact Or.inr (Or.inr ⟨hm, ⟨v, rfl⟩, (Except.ok.inj hok).symm⟩)

/-- The headers slot is untouched by `_get_case_strategy`'s body handling. -/
theorem _get_case_strategy_headers (fromSchema : Engine) (ep : Endpoint)
    (extra : StaticMap) (strategies : StratMap) (cases : List Case)
    (hok : _get_case_strategy fromSchema ep extra strategies = Except.ok cases)
    (c : Case) (hc : c ∈ cases) :
    c.fieldOf .headers ∈ drawsFor (extra .headers) (strategies .headers) := by
  rcases _get_case_strategy_ok_inv _ _ _ _ _ hok with
    ⟨hm, rfl⟩ | ⟨hm, hb, bs, hf, rfl⟩ | ⟨hm, hb, rfl⟩
  · have h := ((mem_buildCases _ _ _ _).mp hc).2.2.2 .headers
    rwa [updMap_ne _ _ (by decide), updMap_ne _ _ (by decide)] at h
  · have h := ((mem_buildCases _ _ _ _).mp hc).2.2.2 .headers
    rwa [updMap_ne _ _ (by decide)] at h
  · exact ((mem_buildCases _ _ _ _).mp hc).2.2.2 .headers

/-- On a GET endpoint every composed case's body is `None`. -/
theorem _get_case_strategy_GET_body (fromSchema : Engine) (ep : Endpoint)
    (extra : StaticMap) (strategies : StratMap) (cases : List Case)
    (hGET : ep.method = "GET")
    (hok : _get_case_strategy fromSchema ep extra strategies = Except.ok cases)
    (c : Case) (hc : c ∈ cases) : c.fieldOf .body = Value.vnull := by
  unfold _get_case_strategy at hok
  rw [if_pos hGET] at hok
  obtain rfl := Except.ok.inj hok
  have h := ((mem_buildCases _ _ _ _).mp hc).2.2.2 .body
  rw [updMap_self] at h
  simpa [drawsFor] using h

/-- Inversion of `get_case_strategy`'s success: the five translations
succeeded and the composition was built from them, headers filtered. -/
theorem get_case_strategy_ok_inv (fromSchema : Engine) (ep : Endpoint)
    (cases : List Case) (hok : get_case_strategy fromSchema ep = Except.ok cases) :
    ∃ pp hd ck qu fd,
      fromSchema ep.path_parameters = Except.ok pp
      ∧ fromSchema ep.headers = Except.ok hd
      ∧ fromSchema ep.cookies = Except.ok ck
      ∧ fromSchema ep.query = Except.ok qu
      ∧ fromSchema ep.form_data = Except.ok fd
      ∧ _get_case_strategy fromSchema ep emptyStatic
          (fun c => match c with
            | .path_parameters => some pp
            | .headers => some (hd.filter is_valid_header_value)
            | .cookies => some ck
            | .query => some qu
            | .body => none
            | .form_data => some fd) = Except.ok cases := by
  unfold get_case_strategy at hok
  cases h1 : fromSchema ep.path_parameters with
  | error e =>
    simp only [h1] at hok
    exact Except.noConfusion hok
  | ok pp =>
  simp only [h1] at hok
  cases h2 : fromSchema ep.headers with
  | error e =>
    simp only [h2] at hok
    exact Except.noConfusion hok
  | ok hd =>
  simp only [h2] at hok
  cases h3 : fromSchema ep.cookies with
  | error e =>
    simp only [h3] at hok
    exact Except.noConfusion hok
  | ok ck =>
  simp only [h3] at hok
  cases h4 : fromSchema ep.query with
  | error e =>
    simp only [h4] at hok
    exact Except.noConfusion hok
  | ok qu =>
  simp only [h4] at hok
  cases h5 : fromSchema ep.form_data with
  | error e =>
    simp only [h5] at hok
    exact Except.noConfusion hok
  | ok fd =>
  simp only [h5] at hok
  cases h6 : _get_case_strategy fromSchema ep emptyStatic
      (fun c => match c with
        | .path_parameters => some pp
        | .headers => some (hd.filter is_valid_header_value)
        | .cookies => some ck
        | .query => some qu
        | .body => none
        | .form_data => some fd) with
  | error e =>
    simp only [h6] at hok
    exact Except.noConfusion hok
  | ok cs =>
    simp only [h6] at hok
    obtain rfl := Except.ok.inj hok
    exact ⟨pp, hd, ck, qu, fd, rfl, rfl, rfl, rfl, rfl, h6⟩

/-! ## Claim theorems: strategy composition -/

/-- C2 (amended): every Case the randomized case strategy yields has all its
header entries accepted by the Header Validity Filter, because the headers
sub-strategy is wrapped in `.filter(is_valid_header)`; the extraction path
`get_examples` builds its strategies without that filter, so the claim fails
there — see the counterexample. -/
theorem case_strategy_headers_valid (fromSchema : Engine) (ep : Endpoint)
    (cases : List Case) (hok : get_case_strategy fromSchema ep = Except.ok cases) :
    ∀ c ∈ cases, is_valid_header_value c.headers = true := by
  obtain ⟨pp, hd, ck, qu, fd, _, _, _, _, _, hg⟩ :=
    get_case_strategy_ok_inv fromSchema ep cases hok
  intro c hc
  have h := _get_case_strategy_headers fromSchema ep _ _ _ hg c hc
  simp only [emptyStatic, drawsFor] at h
  exact (List.mem_filter.mp h).2

/-- C2 is refuted on example extraction: `get_examples` builds its header
strategies without the validity filter, so the extracted example case below
carries a header value with a bare carriage return, which the Header
Validity Filter rejects. -/
theorem get_examples_headers_unfiltered_cex :
    get_examples crlfHeaderEngine crlfHeaderEndpoint = Except.ok [crlfHeaderCase]
    ∧ is_valid_header_value crlfHeaderCase.headers = false :=
  ⟨rfl, rfl⟩

/-- Witness for C2's amended theorem at a concrete engine and endpoint. -/
theorem case_strategy_headers_valid_witness :
    is_valid_header_value plainGetCase.headers = true :=
  case_strategy_headers_valid plainEngine plainGetEndpoint [plainGetCase] rfl
    plainGetCase (List.mem_cons_self _ _)

/-- On a GET endpoint every case an extraction iteration yields has body
`None`. -/
theorem exampleCaseFor_GET_body (fromSchema : Engine) (ep : Endpoint) (name : Cat)
    (l : List Case) (hGET : ep.method = "GET")
    (hok : exampleCaseFor fromSchema ep name = Except.ok l) :
    ∀ c ∈ l, c.fieldOf .body = Value.vnull := by
  unfold exampleCaseFor at hok
  cases hx : dictGet (ep.schemaOf name) "example" with
  | none =>
    simp only [hx] at hok
    obtain rfl := Except.ok.inj hok
    intro c hc
    simp at hc
  | some exv =>
    simp only [hx] at hok
    cases hs : strategiesExcept fromSchema ep name with
    | error e =>
      simp only [hs] at hok
      exact Except.noConfusion hok
    | ok strategies =>
      simp only [hs] at hok
      cases hg : _get_case_strategy fromSchema ep
          (updMap (fun _ => none) name (some exv)) strategies with
      | error e =>
        simp only [hg] at hok
        exact Except.noConfusion hok
      | ok cases0 =>
        simp only [hg] at hok
        cases hh : cases0.head? with
        | none =>
          simp only [hh] at hok
          exact Except.noConfusion hok
        | some c0 =>
          simp only [hh] at hok
          obtain rfl := Except.ok.inj hok
          intro c hc
          simp only [List.mem_singleton] at hc
          rw [hc]
          exact _get_case_strategy_GET_body fromSchema ep _ _ _ hGET hg c0
            (mem_of_head?_eq hh)

/-- On a GET endpoint every extracted example case has body `None`. -/
theorem get_examples_GET_body (fromSchema : Engine) (ep : Endpoint)
    (cases : List Case) (hGET : ep.method = "GET")
    (hok : get_examples fromSchema ep = Except.ok cases) :
    ∀ c ∈ cases, c.fieldOf .body = Value.vnull := by
  unfold get_examples at hok
  cases e1 : exampleCaseFor fromSchema ep .path_parameters with
  | error e =>
    simp only [e1] at hok
    exact Except.noConfusion hok
  | ok l1 =>
  simp only [e1] at hok
  cases e2 : exampleCaseFor fromSchema ep .headers with
  | error e =>
    simp only [e2] at hok
    exact Except.noConfusion hok
  | ok l2 =>
  simp only [e2] at hok
  cases e3 : exampleCaseFor fromSchema ep .cookies with
  | error e =>
    simp only [e3] at hok
    exact Except.noConfusion hok
  | ok l3 =>
  simp only [e3] at hok
  cases e4 : exampleCaseFor fromSchema ep .query with
  | error e =>
    simp only [e4] at hok
    exact Except.noConfusion hok
  | ok l4 =>
  simp only [e4] at hok
  cases e5 : exampleCaseFor fromSchema ep .body with
  | error e =>
    simp only [e5] at hok
    exact Except.noConfusion hok
  | ok l5 =>
  simp only [e5] at hok
  cases e6 : exampleCaseFor fromSchema ep .form_data with
  | error e =>
    simp only [e6] at hok
    exact Except.noConfusion hok
  | ok l6 =>
  simp only [e6] at hok
  obtain rfl := Except.ok.inj hok
  intro c hc
  simp only [List.mem_append] at hc
  rcases hc with ((((h | h) | h) | h) | h) | h
  · exact exampleCaseFor_GET_body fromSchema ep _ l1 hGET e1 c h
  · exact exampleCaseFor_GET_body fromSchema ep _ l2 hGET e2 c h
  · exact exampleCaseFor_GET_body fromSchema ep _ l3 hGET e3 c h
  · exact exampleCaseFor_GET_body fromSchema ep _ l4 hGET e4 c h
  · exact exampleCaseFor_GET_body fromSchema ep _ l5 hGET e5 c h
  · exact exampleCaseFor_GET_body fromSchema ep _ l6 hGET e6 c h

/-- C1 (amended): for a GET endpoint every produced Case — randomized or
example-extracted — has body `None` regardless of the body schema, and the
randomized strategy's result is independent of the engine's behaviour on the
body schema (no body generator is built there).  Example extraction,
however, does invoke the body schema's translation before discarding it —
see the counterexample. -/
theorem get_body_is_none_for_GET (fromSchema fromSchema2 : Engine) (ep : Endpoint)
    (hGET : ep.method = "GET") :
    (∀ cases, get_case_strategy fromSchema ep = Except.ok cases →
      ∀ c ∈ cases, c.body = Value.vnull)
    ∧ (∀ cases, get_examples fromSchema ep = Except.ok cases →
      ∀ c ∈ cases, c.body = Value.vnull)
    ∧ (fromSchema ep.path_parameters = fromSchema2 ep.path_parameters →
      fromSchema ep.headers = fromSchema2 ep.headers →
      fromSchema ep.cookies = fromSchema2 ep.cookies →
      fromSchema ep.query = fromSchema2 ep.query →
      fromSchema ep.form_data = fromSchema2 ep.form_data →
      get_case_strategy fromSchema ep = get_case_strategy fromSchema2 ep) := by
  refine ⟨?_, ?_, ?_⟩
  · intro cases hok c hc
    obtain ⟨pp, hd, ck, qu, fd, _, _, _, _, _, hg⟩ :=
      get_case_strategy_ok_inv fromSchema ep cases hok
    exact _get_case_strategy_GET_body fromSchema ep _ _ _ hGET hg c hc
  · intro cases hok c hc
    exact get_examples_GET_body fromSchema ep cases hGET hok c hc
  · intro hp hh hc hq hf
    unfold get_case_strategy
    rw [hp, hh, hc, hq, hf]
    cases hA : fromSchema2 ep.path_parameters with
    | error e => rfl
    | ok pp =>
    simp only []
    cases hB : fromSchema2 ep.headers with
    | error e => rfl
    | ok hd =>
    simp only []
    cases hC : fromSchema2 ep.cookies with
    | error e => rfl
    | ok ck =>
    simp only []
    cases hD : fromSchema2 ep.query with
    | error e => rfl
    | ok qu =>
    simp only []
    cases hE : fromSchema2 ep.form_data with
    | error e => rfl
    | ok fd =>
    simp only []
    unfold _get_case_strategy
    rw [if_pos hGET, if_pos hGET]

/-- C1's "no body generator is built" clause is refuted on example
extraction: on this GET endpoint the body schema's translation fails, and
`get_examples` propagates the failure — so the translation was invoked —
while the randomized strategy never invokes it and succeeds. -/
theorem get_examples_builds_body_generator_cex :
    bodyFailGetEndpoint.method = "GET"
    ∧ bodyFailEngine bodyFailGetEndpoint.body = Except.error ()
    ∧ get_examples bodyFailEngine bodyFailGetEndpoint = Except.error ()
    ∧ get_case_strategy bodyFailEngine bodyFailGetEndpoint
        = Except.ok [emptyObjGetCase] :=
  ⟨rfl, rfl, rfl, rfl⟩

/-- Witness for C1's amended theorem: a concrete GET case has body `None`,
and two engines differing only on the body schema give the same randomized
strategy. -/
theorem get_body_is_none_for_GET_witness :
    plainGetCase.body = Value.vnull
    ∧ get_case_strategy bodyFailEngine bodyFailGetEndpoint
      = get_case_strategy emptyObjEngine bodyFailGetEndpoint := by
  have h1 := get_body_is_none_for_GET plainEngine plainEngine plainGetEndpoint rfl
  have h2 := get_body_is_none_for_GET bodyFailEngine emptyObjEngine
    bodyFailGetEndpoint rfl
  exact ⟨h1.1 [plainGetCase] rfl plainGetCase (List.mem_cons_self _ _),
    h2.2.2 rfl rfl rfl rfl rfl⟩

/-- C10 (amended): the composed strategy exists exactly when the translation
succeeds on every slot a generator is actually built from — the five
non-body slots always, the body slot only when the method is not `GET` —
and every failure surfaces as `InvalidEndpoint` (the result type carries no
other error). -/
theorem get_case_strategy_error_iff (fromSchema : Engine) (ep : Endpoint) :
    (isOkB (get_case_strategy fromSchema ep) = true ↔
      (isOkB (fromSchema ep.path_parameters) = true
        ∧ isOkB (fromSchema ep.headers) = true
        ∧ isOkB (fromSchema ep.cookies) = true
        ∧ isOkB (fromSchema ep.query) = true
        ∧ isOkB (fromSchema ep.form_data) = true
        ∧ (ep.method = "GET" ∨ isOkB (fromSchema ep.body) = true)))
    ∧ (isOkB (get_case_strategy fromSchema ep) = false →
      get_case_strategy fromSchema ep = Except.error InvalidEndpoint.mk) := by
  constructor
  · unfold get_case_strategy
    cases h1 : fromSchema ep.path_parameters with
    | error e => simp [isOkB]
    | ok pp =>
    cases h2 : fromSchema ep.headers with
    | error e => simp [isOkB]
    | ok hd =>
    cases h3 : fromSchema ep.cookies with
    | error e => simp [isOkB]
    | ok ck =>
    cases h4 : fromSchema ep.query with
    | error e => simp [isOkB]
    | ok qu =>
    cases h5 : fromSchema ep.form_data with
    | error e => simp [isOkB]
    | ok fd =>
    by_cases hm : ep.method = "GET"
    · simp [_get_case_strategy, hm, isOkB]
    · cases hb : fromSchema ep.body with
      | error e => simp [_get_case_strategy, hm, hb, isOkB, emptyStatic]
      | ok bs => simp [_get_case_strategy, hm, hb, isOkB, emptyStatic]
  · intro h
    cases hr : get_case_strategy fromSchema ep with
    | ok cs =>
      rw [hr] at h
      simp [isOkB] at h
    | error e =>
      cases e
      rfl

/-- C10 is refuted for GET endpoints: the body schema slot's translation
fails, yet `get_case_strategy` returns a strategy instead of failing with
`InvalidEndpoint`. -/
theorem get_case_strategy_get_ignores_body_cex :
    bodyFailEngine bodyFailGetEndpoint.body = Except.error ()
    ∧ bodyFailGetEndpoint.method = "GET"
    ∧ get_case_strategy bodyFailEngine bodyFailGetEndpoint
        = Except.ok [emptyObjGetCase] :=
  ⟨rfl, rfl, rfl⟩

/-- Witness for C10's amended theorem: a successful concrete composition and
a failing one that surfaces as `InvalidEndpoint`. -/
theorem get_case_strategy_error_iff_witness :
    isOkB (get_case_strategy plainEngine plainGetEndpoint) = true
    ∧ get_case_strategy alwaysFailEngine plainGetEndpoint
      = Except.error InvalidEndpoint.mk :=
  ⟨(get_case_strategy_error_iff plainEngine plainGetEndpoint).1.mpr
     ⟨rfl, rfl, rfl, rfl, rfl, Or.inl rfl⟩,
   (get_case_strategy_error_iff alwaysFailEngine plainGetEndpoint).2 rfl⟩

/-- Inversion of one comprehension entry's success. -/
theorem strategyFor_ok_inv (fromSchema : Engine) (ep : Endpoint) (name c : Cat)
    (r : Option Strategy) (h : strategyFor fromSchema ep name c = Except.ok r) :
    (c = name ∧ r = none)
    ∨ (c ≠ name ∧ ∃ s, fromSchema (ep.schemaOf c) = Except.ok s ∧ r = some s) := by
  unfold strategyFor at h
  by_cases hc : c = name
  · rw [if_pos hc] at h
    exact Or.inl ⟨hc, (Except.ok.inj h).symm⟩
  · rw [if_neg hc] at h
    cases hf : fromSchema (ep.schemaOf c) with
    | error e =>
      simp only [hf] at h
      exact Except.noConfusion h
    | ok s =>
      simp only [hf] at h
      exact Or.inr ⟨hc, s, rfl, (Except.ok.inj h).symm⟩

/-- Inversion of the comprehension's success: the pinned category has no
strategy, every other category's strategy is its own schema's translation. -/
theorem strategiesExcept_ok_inv (fromSchema : Engine) (ep : Endpoint) (name : Cat)
    (sm : StratMap) (hok : strategiesExcept fromSchema ep name = Except.ok sm) :
    ∀ c : Cat, (c = name ∧ sm c = none)
      ∨ (c ≠ name ∧ ∃ s, fromSchema (ep.schemaOf c) = Except.ok s ∧ sm c = some s) := by
  unfold strategiesExcept at hok
  cases hA : strategyFor fromSchema ep name .path_parameters with
  | error e =>
    simp only [hA] at hok
    exact Except.noConfusion hok
  | ok pp =>
  simp only [hA] at hok
  cases hB : strategyFor fromSchema ep name .headers with
  | error e =>
    simp only [hB] at hok
    exact Except.noConfusion hok
  | ok hd =>
  simp only [hB] at hok
  cases hC : strategyFor fromSchema ep name .cookies with
  | error e =>
    simp only [hC] at hok
    exact Except.noConfusion hok
  | ok ck =>
  simp only [hC] at hok
  cases hD : strategyFor fromSchema ep name .query with
  | error e =>
    simp only [hD] at hok
    exact Except.noConfusion hok
  | ok qu =>
  simp only [hD] at hok
  cases hE : strategyFor fromSchema ep name .body with
  | error e =>
    simp only [hE] at hok
    exact Except.noConfusion hok
  | ok bd =>
  simp only [hE] at hok
  cases hF : strategyFor fromSchema ep name .form_data with
  | error e =>
    simp only [hF] at hok
    exact Except.noConfusion hok
  | ok fd =>
  simp only [hF] at hok
  obtain rfl := Except.ok.inj hok
  intro c
  cases c with
  | path_parameters => exact strategyFor_ok_inv _ _ _ _ _ hA
  | headers => exact strategyFor_ok_inv _ _ _ _ _ hB
  | cookies => exact strategyFor_ok_inv _ _ _ _ _ hC
  | query => exact strategyFor_ok_inv _ _ _ _ _ hD
  | body => exact strategyFor_ok_inv _ _ _ _ _ hE
  | form_data => exact strategyFor_ok_inv _ _ _ _ _ hF

/-- A successful extraction iteration yields one case when the category
declares an example and none otherwise. -/
theorem exampleCaseFor_ok_length (fromSchema : Engine) (ep : Endpoint) (name : Cat)
    (l : List Case) (hok : exampleCaseFor fromSchema ep name = Except.ok l) :
    l.length = if (dictGet (ep.schemaOf name) "example").isSome then 1 else 0 := by
  unfold exampleCaseFor at hok
  cases hx : dictGet (ep.schemaOf name) "example" with
  | none =>
    simp only [hx] at hok
    obtain rfl := Except.ok.inj hok
    simp
  | some exv =>
    simp only [hx] at hok
    cases hs : strategiesExcept fromSchema ep name with
    | error e =>
      simp only [hs] at hok
      exact Except.noConfusion hok
    | ok sm =>
    simp only [hs] at hok
    cases hg : _get_case_strategy fromSchema ep
        (updMap (fun _ => none) name (some exv)) sm with
    | error e =>
      simp only [hg] at hok
      exact Except.noConfusion hok
    | ok cases0 =>
    simp only [hg] at hok
    cases hh : cases0.head? with
    | none =>
      simp only [hh] at hok
      exact Except.noConfusion hok
    | some c0 =>
      simp only [hh] at hok
      obtain rfl := Except.ok.inj hok
      simp

/-- Inversion of a successful extraction iteration: the single produced case
pins the example value (unless the GET body override clobbers it) and draws
every other category from its own schema's translation. -/
theorem exampleCaseFor_ok_inv (fromSchema : Engine) (ep : Endpoint) (name : Cat)
    (exv : Value) (l : List Case)
    (hex : dictGet (ep.schemaOf name) "example" = some exv)
    (hok : exampleCaseFor fromSchema ep name = Except.ok l) :
    ∃ c0, l = [c0]
      ∧ c0.path = ep.path ∧ c0.method = ep.method ∧ c0.base_url = ep.base_url
      ∧ (ep.method = "GET" → c0.fieldOf .body = Value.vnull)
      ∧ ((name = .body → ep.method ≠ "GET") → c0.fieldOf name = exv)
      ∧ (∀ cat : Cat, cat ≠ name → (cat = .body → ep.method ≠ "GET") →
          ∃ s, fromSchema (ep.schemaOf cat) = Except.ok s ∧ c0.fieldOf cat ∈ s) := by
  unfold exampleCaseFor at hok
  simp only [hex] at hok
  cases hs : strategiesExcept fromSchema ep name with
  | error e =>
    simp only [hs] at hok
    exact Except.noConfusion hok
  | ok sm =>
  simp only [hs] at hok
  cases hg : _get_case_strategy fromSchema ep
      (updMap (fun _ => none) name (some exv)) sm with
  | error e =>
    simp only [hg] at hok
    exact Except.noConfusion hok
  | ok cases0 =>
  simp only [hg] at hok
  cases hh : cases0.head? with
  | none =>
    simp only [hh] at hok
    exact Except.noConfusion hok
  | some c0 =>
  simp only [hh] at hok
  obtain rfl := Except.ok.inj hok
  have hc0 : c0 ∈ cases0 := mem_of_head?_eq hh
  have hsm := strategiesExcept_ok_inv fromSchema ep name sm hs
  refine ⟨c0, rfl, ?_⟩
  rcases _get_case_strategy_ok_inv _ _ _ _ _ hg with
    ⟨hm, rfl⟩ | ⟨hm, hb, bs, hf, rfl⟩ | ⟨hm, hb, rfl⟩
  · obtain ⟨hpath, hmethod, hbase, hdraws⟩ := (mem_buildCases _ _ _ _).mp hc0
    refine ⟨hpath, hmethod, hbase, ?_, ?_, ?_⟩
    · intro _
      have h := hdraws .body
      rw [updMap_self] at h
      simpa [drawsFor] using h
    · intro hnb
      by_cases hnbody : name = .body
      · exact absurd hm (hnb hnbody)
      · have h := hdraws name
        rw [updMap_ne _ _ hnbody, updMap_ne _ _ hnbody, updMap_self] at h
        simpa [drawsFor] using h
    · intro cat hcat hcatbody
      by_cases hcb : cat = .body
      · exact absurd hm (hcatbody hcb)
      · have h := hdraws cat
        rw [updMap_ne _ _ hcb, updMap_ne _ _ hcb, updMap_ne _ _ hcat] at h
        rcases hsm cat with ⟨heq, -⟩ | ⟨-, s, hfs, hsmc⟩
        · exact absurd heq hcat
        · rw [hsmc] at h
          simp only [drawsFor] at h
          exact ⟨s, hfs, h⟩
  · have hnb : name ≠ Cat.body := by
      intro h
      simp [updMap, h] at hb
    obtain ⟨hpath, hmethod, hbase, hdraws⟩ := (mem_buildCases _ _ _ _).mp hc0
    refine ⟨hpath, hmethod, hbase, ?_, ?_, ?_⟩
    · intro h
      exact absurd h hm
    · intro _
      have h := hdraws name
      rw [updMap_ne _ _ (Ne.symm (fun he => hnb he.symm)), updMap_self] at h
      simpa [drawsFor] using h
    · intro cat hcat hcatbody
      by_cases hcb : cat = .body
      · subst hcb
        have h := hdraws .body
        rw [updMap_self, hb] at h
        simp only [drawsFor] at h
        exact ⟨bs, hf, h⟩
      · have h := hdraws cat
        rw [updMap_ne _ _ hcb, updMap_ne _ _ hcat] at h
        rcases hsm cat with ⟨heq, -⟩ | ⟨-, s, hfs, hsmc⟩
        · exact absurd heq hcat
        · rw [hsmc] at h
          simp only [drawsFor] at h
          exact ⟨s, hfs, h⟩
  · obtain ⟨v0, hv0⟩ := hb
    have hnb : name = Cat.body := by
      by_contra h
      simp [updMap] at hv0
      exact h hv0.1.symm
    subst hnb
    obtain ⟨hpath, hmethod, hbase, hdraws⟩ := (mem_buildCases _ _ _ _).mp hc0
    refine ⟨hpath, hmethod, hbase, ?_, ?_, ?_⟩
    · intro h
      exact absurd h hm
    · intro _
      have h := hdraws .body
      rw [updMap_self] at h
      simpa [drawsFor] using h
    · intro cat hcat _
      have h := hdraws cat
      rw [updMap_ne _ _ hcat] at h
      rcases hsm cat with ⟨heq, -⟩ | ⟨-, s, hfs, hsmc⟩
      · exact absurd heq hcat
      · rw [hsmc] at h
        simp only [drawsFor] at h
        exact ⟨s, hfs, h⟩

/-- C8: for an Endpoint whose query schema declares a literal `"example"`,
the extracted example set contains a case whose `query` is exactly that
value, with the fixed fields copied from the endpoint and every other
category drawn from its own schema's translation (body `None` on GET); and
exactly one case is produced per category declaring an example. -/
theorem examples_pin_declared_example (fromSchema : Engine) (ep : Endpoint)
    (v : Value) (cases : List Case)
    (hex : dictGet ep.query "example" = some v)
    (hok : get_examples fromSchema ep = Except.ok cases) :
    (∃ c, c ∈ cases ∧ c.query = v
      ∧ c.path = ep.path ∧ c.method = ep.method ∧ c.base_url = ep.base_url
      ∧ (∀ s, fromSchema ep.path_parameters = Except.ok s → c.path_parameters ∈ s)
      ∧ (∀ s, fromSchema ep.headers = Except.ok s → c.headers ∈ s)
      ∧ (∀ s, fromSchema ep.cookies = Except.ok s → c.cookies ∈ s)
      ∧ (∀ s, fromSchema ep.form_data = Except.ok s → c.form_data ∈ s)
      ∧ (ep.method = "GET" → c.body = Value.vnull)
      ∧ (ep.method ≠ "GET" → ∀ s, fromSchema ep.body = Except.ok s → c.body ∈ s))
    ∧ cases.length = (categoriesWithExample ep).length := by
  unfold get_examples at hok
  cases e1 : exampleCaseFor fromSchema ep .path_parameters with
  | error e =>
    simp only [e1] at hok
    exact Except.noConfusion hok
  | ok l1 =>
  simp only [e1] at hok
  cases e2 : exampleCaseFor fromSchema ep .headers with
  | error e =>
    simp only [e2] at hok
    exact Except.noConfusion hok
  | ok l2 =>
  simp only [e2] at hok
  cases e3 : exampleCaseFor fromSchema ep .cookies with
  | error e =>
    simp only [e3] at hok
    exact Except.noConfusion hok
  | ok l3 =>
  simp only [e3] at hok
  cases e4 : exampleCaseFor fromSchema ep .query with
  | error e =>
    simp only [e4] at hok
    exact Except.noConfusion hok
  | ok l4 =>
  simp only [e4] at hok
  cases e5 : exampleCaseFor fromSchema ep .body with
  | error e =>
    simp only [e5] at hok
    exact Except.noConfusion hok
  | ok l5 =>
  simp only [e5] at hok
  cases e6 : exampleCaseFor fromSchema ep .form_data with
  | error e =>
    simp only [e6] at hok
    exact Except.noConfusion hok
  | ok l6 =>
  simp only [e6] at hok
  obtain rfl := Except.ok.inj hok
  constructor
  · obtain ⟨c0, hl4, hpath, hmethod, hbase, hbodyGET, hpin, hcats⟩ :=
      exampleCaseFor_ok_inv fromSchema ep .query v l4 hex e4
    refine ⟨c0, ?_, ?_, hpath, hmethod, hbase, ?_, ?_, ?_, ?_, ?_, ?_⟩
    · rw [hl4]
      simp [List.mem_append]
    · exact hpin (fun h => nomatch h)
    · intro s hs
      obtain ⟨s', hfs, hmem⟩ := hcats .path_parameters (by decide) (fun h => nomatch h)
      obtain rfl := Except.ok.inj (hfs.symm.trans hs)
      exact hmem
    · intro s hs
      obtain ⟨s', hfs, hmem⟩ := hcats .headers (by decide) (fun h => nomatch h)
      obtain rfl := Except.ok.inj (hfs.symm.trans hs)
      exact hmem
    · intro s hs
      obtain ⟨s', hfs, hmem⟩ := hcats .cookies (by decide) (fun h => nomatch h)
      obtain rfl := Except.ok.inj (hfs.symm.trans hs)
      exact hmem
    · intro s hs
      obtain ⟨s', hfs, hmem⟩ := hcats .form_data (by decide) (fun h => nomatch h)
      obtain rfl := Except.ok.inj (hfs.symm.trans hs)
      exact hmem
    · exact hbodyGET
    · intro hm s hs
      obtain ⟨s', hfs, hmem⟩ := hcats .body (by decide) (fun _ => hm)
      obtain rfl := Except.ok.inj (hfs.symm.trans hs)
      exact hmem
  · have n1 := exampleCaseFor_ok_length fromSchema ep _ l1 e1
    have n2 := exampleCaseFor_ok_length fromSchema ep _ l2 e2
    have n3 := exampleCaseFor_ok_length fromSchema ep _ l3 e3
    have n4 := exampleCaseFor_ok_length fromSchema ep _ l4 e4
    have n5 := exampleCaseFor_ok_length fromSchema ep _ l5 e5
    have n6 := exampleCaseFor_ok_length fromSchema ep _ l6 e6
    simp only [List.length_append, n1, n2, n3, n4, n5, n6,
      categoriesWithExample, categoriesList, List.filter]
    cases (dictGet (ep.schemaOf Cat.path_parameters) "example").isSome <;>
    cases (dictGet (ep.schemaOf Cat.headers) "example").isSome <;>
    cases (dictGet (ep.schemaOf Cat.cookies) "example").isSome <;>
    cases (dictGet (ep.schemaOf Cat.query) "example").isSome <;>
    cases (dictGet (ep.schemaOf Cat.body) "example").isSome <;>
    cases (dictGet (ep.schemaOf Cat.form_data) "example").isSome <;>
    simp

/-- Witness for C8: the extraction over `queryExampleEndpoint` pins the
declared query example, and produces exactly one case (one category declares
an example). -/
theorem examples_pin_declared_example_witness :
    queryExampleCase.query = Value.vobj [("q", Value.vstr "x")]
    ∧ ([queryExampleCase] : List Case).length
      = (categoriesWithExample queryExampleEndpoint).length := by
  have h := examples_pin_declared_example plainEngine queryExampleEndpoint
    (Value.vobj [("q", Value.vstr "x")]) [queryExampleCase] rfl rfl
  obtain ⟨⟨c, hc, hq, -⟩, hlen⟩ := h
  simp only [List.mem_singleton] at hc
  rw [hc] at hq
  exact ⟨hq, hlen⟩

end Schemathesis
